import Mathlib

/-
Verification development for the uni-addr unified socket-address library.

Strings are modelled as lists of UTF-8 bytes (`List Nat`); this is faithful
because every operation of the library (prefix stripping, splitting on the
ASCII byte/char 58, the hostname byte scanner, the unix-address byte
dispatch) works on UTF-8 bytes, and multi-byte UTF-8 sequences never
contain ASCII bytes.  The platform modelled is the Linux family
(`target_os = "linux"`/`"android"`): the abstract namespace is supported
and `sun_path` holds 108 bytes.  Filesystem activity is made observable by
returning an explicit list of effects next to each result.
-/

def utf8EncodeChar (c : Char) : List Nat :=
  let n := c.toNat
  if n < 128 then [n]
  else if n < 2048 then [192 + n / 64, 128 + n % 64]
  else if n < 65536 then [224 + n / 4096, 128 + (n / 64) % 64, 128 + n % 64]
  else [240 + n / 262144, 128 + (n / 4096) % 64, 128 + (n / 64) % 64, 128 + n % 64]

def strBytes (s : String) : List Nat :=
  s.data.flatMap utf8EncodeChar

/-- ASCII `0`-`9`. -/
def isDigitByte (c : Nat) : Bool :=
  decide (48 ≤ c ∧ c ≤ 57)

/-- ASCII `a`-`z` or `A`-`Z`. -/
def isAlphaByte (c : Nat) : Bool :=
  decide ((97 ≤ c ∧ c ≤ 122) ∨ (65 ≤ c ∧ c ≤ 90))

/-! ## Hostname validator (`UniAddr::validate_host_name`, src/lib.rs)

The finite-state machine is copied arm by arm from the Rust `match`; the
three states `Start`, `Next` and `NextAfterNumericOnly` share their
transitions in the source (they appear in the same or-patterns), expressed
here by the shared body `hstepFresh`. -/

inductive HState where
  | start : HState
  | next : HState
  | numericOnly (len : Nat) : HState
  | nextAfterNumericOnly : HState
  | subsequent (len : Nat) : HState
  | hyphen (len : Nat) : HState
deriving DecidableEq

def MAX_LABEL_LENGTH : Nat := 63

def MAX_NAME_LENGTH : Nat := 253

/-- Transition out of `Start`/`Next`/`NextAfterNumericOnly` (identical arms
in the source `match`): a dot is an error, a digit starts a numeric label,
a letter or underscore starts a `Subsequent` label, all else is an error. -/
def hstepFresh (ch : Nat) : Option HState :=
  if ch == 46 then none
  else if isDigitByte ch then some (.numericOnly 1)
  else if isAlphaByte ch || ch == 95 then some (.subsequent 1)
  else none

def hstep : HState → Nat → Option HState
  | .start, ch => hstepFresh ch
  | .next, ch => hstepFresh ch
  | .nextAfterNumericOnly, ch => hstepFresh ch
  | .numericOnly len, ch =>
      if ch == 46 then some .nextAfterNumericOnly
      else if MAX_LABEL_LENGTH ≤ len then none
      else if isDigitByte ch then some (.numericOnly (len + 1))
      else if ch == 45 then some (.hyphen (len + 1))
      else if isAlphaByte ch || ch == 95 then some (.subsequent (len + 1))
      else none
  | .subsequent len, ch =>
      if ch == 46 then some .next
      else if MAX_LABEL_LENGTH ≤ len then none
      else if ch == 45 then some (.hyphen (len + 1))
      else if isAlphaByte ch || ch == 95 || isDigitByte ch then some (.subsequent (len + 1))
      else none
  | .hyphen len, ch =>
      if ch == 46 then none
      else if MAX_LABEL_LENGTH ≤ len then none
      else if ch == 45 then some (.hyphen (len + 1))
      else if isAlphaByte ch || ch == 95 || isDigitByte ch then some (.subsequent (len + 1))
      else none

def hrun : HState → List Nat → Option HState
  | state, [] => some state
  | state, ch :: rest =>
      match hstep state ch with
      | none => none
      | some s2 => hrun s2 rest

/-- `UniAddr::validate_host_name` as a boolean acceptor: `true` is `Ok(())`. -/
def validate_host_name (input : List Nat) : Bool :=
  if MAX_NAME_LENGTH < input.length then false
  else
    match hrun .start input with
    | some (.subsequent _) => true
    | _ => false

/-! ## Declarative hostname syntax (from the specification text) -/

/-- Split on the ASCII dot (46); `splitOnDot [] = [[]]`, mirroring the label
decomposition of a dotted name (a trailing dot yields a final empty label). -/
def splitOnDot : List Nat → List (List Nat)
  | [] => [[]]
  | ch :: rest =>
      if ch == 46 then [] :: splitOnDot rest
      else
        match splitOnDot rest with
        | [] => [[ch]]
        | lab :: labs => (ch :: lab) :: labs

def allDigits (l : List Nat) : Bool := l.all isDigitByte

/-- Bytes allowed inside a label: `[A-Za-z0-9_-]`. -/
def labelByteOk (c : Nat) : Bool :=
  isDigitByte c || isAlphaByte c || c == 95 || c == 45

/-- Modelled from the spec (claim C5 conditions): a label must be nonempty,
at most 63 bytes, made of allowed bytes, and must not end in a hyphen.
The claim states no condition on a label-leading hyphen. -/
def labelOkClaim (lab : List Nat) : Bool :=
  !lab.isEmpty && decide (lab.length ≤ 63) && lab.all labelByteOk
    && !(lab.getLast? == some 45)

/-- `labelOkClaim` strengthened with "a label must not begin with a hyphen",
the condition the code enforces (hyphens never start a label). -/
def labelOkAmended (lab : List Nat) : Bool :=
  labelOkClaim lab && !(lab.head? == some 45)

def lastLabel (s : List Nat) : List Nat := (splitOnDot s).getLastD []

/-- Modelled from the spec: the claim C5 characterization of the hostname
validator (length, byte set, label conditions, non-numeric final label). -/
def hostSpecClaim (s : List Nat) : Bool :=
  decide (s.length ≤ 253) && (splitOnDot s).all labelOkClaim
    && !allDigits (lastLabel s)

/-- The amended characterization: additionally no label begins with a hyphen. -/
def hostSpecAmended (s : List Nat) : Bool :=
  decide (s.length ≤ 253) && (splitOnDot s).all labelOkAmended
    && !allDigits (lastLabel s)

/-! ## Unix-domain address model (src/unix.rs)

`UnixSocketAddr` models the three observable kinds of a
`std::os::unix::net::SocketAddr` on Linux; `fromPathname` and
`fromAbstractName` model `SocketAddr::from_pathname` and
`SocketAddr::from_abstract_name` per their std implementations
(`sun_path` is 108 bytes; a path needs a NUL terminator, an abstract
name needs the leading NUL marker byte). -/

inductive UnixSocketAddr where
  | pathname (path : List Nat) : UnixSocketAddr
  | abstractAddr (name : List Nat) : UnixSocketAddr
  | unnamed : UnixSocketAddr
deriving DecidableEq

inductive UnixIoError where
  | pathInteriorNul : UnixIoError
  | pathTooLong : UnixIoError
  | abstractNameTooLong : UnixIoError
  | missingNulTerminator : UnixIoError
  | notSupported : UnixIoError
deriving DecidableEq

/-- All these io errors have kind `InvalidInput` except `notSupported`,
which has kind `Unsupported`. -/
def UnixIoError.isInvalidInput : UnixIoError → Bool
  | .notSupported => false
  | _ => true

def SUN_PATH_LEN : Nat := 108

/-- `std::os::unix::net::SocketAddr::from_pathname`: rejects interior NUL
bytes and paths not shorter than `sun_path`; the empty path gives the
unnamed address. -/
def fromPathname (path : List Nat) : Except UnixIoError UnixSocketAddr :=
  if path.contains 0 then .error .pathInteriorNul
  else if SUN_PATH_LEN ≤ path.length then .error .pathTooLong
  else if path.isEmpty then .ok .unnamed
  else .ok (.pathname path)

/-- `std::os::linux::net::SocketAddrExt::from_abstract_name`: the name plus
its leading NUL marker must fit in `sun_path`. -/
def fromAbstractName (name : List Nat) : Except UnixIoError UnixSocketAddr :=
  if SUN_PATH_LEN < name.length + 1 then .error .abstractNameTooLong
  else .ok (.abstractAddr name)

/-- An observable filesystem side effect performed during a call. -/
inductive FsEffect where
  | removeFile (path : List Nat) : FsEffect
deriving DecidableEq

/-- `unix::SocketAddr::new`, parametrized by whether the platform supports
the abstract namespace (`target_os = "linux"`/`"android"`), returning the
result together with the list of filesystem effects the call performs.
The source matches `[b'@', rest @ ..] | [b'\0', rest @ ..]` (an or-pattern
on the first byte, here `c == 64 || c == 0`); the `_` arm executes
`let _ = fs::remove_file(addr);` before `from_pathname`. -/
def unixNewOnE (abstractSupported : Bool) (addr : List Nat) :
    Except UnixIoError UnixSocketAddr × List FsEffect :=
  match addr with
  | c :: rest =>
      if c == 64 || c == 0 then
        if abstractSupported then (fromAbstractName rest, [])
        else (.error .notSupported, [])
      else (fromPathname (c :: rest), [.removeFile (c :: rest)])
  | [] => (fromPathname [], [.removeFile []])

/-- `unix::SocketAddr::new` on the Linux family, with effects. -/
def unixNewE (addr : List Nat) : Except UnixIoError UnixSocketAddr × List FsEffect :=
  unixNewOnE true addr

/-- `unix::SocketAddr::new` on the Linux family (result view). -/
def unixNew (addr : List Nat) : Except UnixIoError UnixSocketAddr :=
  (unixNewE addr).1

/-- `bytes` with exactly one leading NUL byte stripped, when present
(the first `match` arm of `from_bytes_until_nul`). -/
def stripOneLeadingNul : List Nat → List Nat
  | 0 :: rest => rest
  | rest => rest

/-- `CStr::from_bytes_until_nul(bytes).to_bytes()`: the bytes strictly
before the first NUL, or `none` when no NUL byte exists. -/
def cstrUntilNul (bytes : List Nat) : Option (List Nat) :=
  if bytes.contains 0 then some (bytes.takeWhile (fun c => c != 0)) else none

/-- `unix::SocketAddr::from_bytes_until_nul`, with effects. -/
def fromBytesUntilNulE (bytes : List Nat) :
    Except UnixIoError UnixSocketAddr × List FsEffect :=
  match cstrUntilNul (stripOneLeadingNul bytes) with
  | none => (.error .missingNulTerminator, [])
  | some pre => unixNewE pre

/-- `unix::SocketAddr::from_bytes_until_nul` (result view). -/
def fromBytesUntilNul (bytes : List Nat) : Except UnixIoError UnixSocketAddr :=
  (fromBytesUntilNulE bytes).1

def UnixSocketAddr.asPathname : UnixSocketAddr → Option (List Nat)
  | .pathname p => some p
  | _ => none

def UnixSocketAddr.asAbstractName : UnixSocketAddr → Option (List Nat)
  | .abstractAddr n => some n
  | _ => none

def UnixSocketAddr.isUnnamed : UnixSocketAddr → Bool
  | .unnamed => true
  | _ => false

/-- A Unix `std::path::Component` (Windows prefixes do not exist here). -/
inductive PathComponent where
  | rootDir : PathComponent
  | curDir : PathComponent
  | parentDir : PathComponent
  | normal (name : List Nat) : PathComponent
deriving DecidableEq

/-- Split on the separator byte 47 (`'/'`). -/
def splitOnSlash : List Nat → List (List Nat)
  | [] => [[]]
  | c :: rest =>
      if c == 47 then [] :: splitOnSlash rest
      else
        match splitOnSlash rest with
        | [] => [[c]]
        | piece :: pieces => (c :: piece) :: pieces

/-- `Components::include_cur_dir`: the path begins with a `.` that is the
whole path or is followed by a separator (checked only when the path has
no root). -/
def includeCurDir : List Nat → Bool
  | [46] => true
  | 46 :: b :: _ => b == 47
  | _ => false

/-- `Path::components()` on Unix: a leading separator is the `RootDir`
component, a leading lone `.` is kept as `CurDir`, and the remaining
separator-split pieces drop empty pieces (repeated or trailing
separators) and interior `.` pieces, keep `..` as `ParentDir`, and keep
everything else as `Normal` names. -/
def pathComponents (p : List Nat) : List PathComponent :=
  let hasRoot := p.head? == some 47
  let body := (splitOnSlash p).filterMap (fun piece =>
    if piece.isEmpty then none
    else if piece == [46] then none
    else if piece == [46, 46] then some .parentDir
    else some (.normal piece))
  (if hasRoot then [.rootDir] else []) ++
    (if !hasRoot && includeCurDir p then [.curDir] else []) ++ body

/-- `PartialEq for Path`, which compares `components()` — so equality is
component-wise, coarser than byte equality (`"/a/"` equals `"/a"`). -/
def pathEq (a b : List Nat) : Bool :=
  decide (pathComponents a = pathComponents b)

/-- `impl PartialEq for unix::SocketAddr`: pathnames compare by `Path`
equality (component-wise), abstract addresses by exact name bytes,
unnamed equals unnamed, anything else is unequal. -/
def sockEq (a b : UnixSocketAddr) : Bool :=
  match a.asPathname, b.asPathname with
  | some l, some r => pathEq l r
  | _, _ =>
      match a.asAbstractName, b.asAbstractName with
      | some l, some r => l == r
      | _, _ => a.isUnnamed && b.isUnnamed

/-- `unix::SocketAddr::_to_os_string(prefix, abstract_identifier)` (called
`to_os_string_impl` at its use site in lib.rs): the prefix, then the path
for pathname addresses, the identifier and the name for abstract ones,
nothing for unnamed ones. -/
def unixToOsStringImpl (pre abstractIdent : List Nat) (a : UnixSocketAddr) : List Nat :=
  match a.asPathname with
  | some p => pre ++ p
  | none =>
      match a.asAbstractName with
      | some n => pre ++ abstractIdent ++ n
      | none => pre

/-! ## Integer and IP-literal parsing (std `FromStr` behaviour)

`u16::from_str` accepts an optional leading `+`, then one or more decimal
digits whose value fits; `Ipv4Addr::from_str` and `Ipv6Addr::from_str`
follow `core::net::parser` (atomic readers over the byte string, full
consumption required). -/

def decValue (l : List Nat) : Nat :=
  l.foldl (fun acc c => acc * 10 + (c - 48)) 0

/-- `u16::from_str`. -/
def parseU16 (s : List Nat) : Option Nat :=
  let digits :=
    match s with
    | 43 :: rest => rest
    | _ => s
  if digits.isEmpty then none
  else if !digits.all isDigitByte then none
  else if 65535 < decValue digits then none
  else some (decValue digits)

/-- One IPv4 octet: `read_number(10, max 3 digits, no zero prefix)` on the
maximal run of digits, with `u8` overflow checking. -/
def readOctet (s : List Nat) : Option (Nat × List Nat) :=
  let digits := s.takeWhile isDigitByte
  if digits.isEmpty then none
  else if 3 < digits.length then none
  else if digits.head? == some 48 && digits.length != 1 then none
  else if 255 < decValue digits then none
  else some (decValue digits, s.dropWhile isDigitByte)

def expectByte (b : Nat) : List Nat → Option (List Nat)
  | c :: rest => if c == b then some rest else none
  | [] => none

/-- `Parser::read_ipv4_addr`: four octets separated by dots, as a prefix
reader (the unread remainder is returned). -/
def readIpv4 (s : List Nat) : Option ((Nat × Nat × Nat × Nat) × List Nat) := do
  let (a, s1) ← readOctet s
  let s2 ← expectByte 46 s1
  let (b, s3) ← readOctet s2
  let s4 ← expectByte 46 s3
  let (c, s5) ← readOctet s4
  let s6 ← expectByte 46 s5
  let (d, s7) ← readOctet s6
  pure ((a, b, c, d), s7)

/-- `Ipv4Addr::from_str`: the whole string must be consumed. -/
def parseIpv4 (s : List Nat) : Option (Nat × Nat × Nat × Nat) :=
  match readIpv4 s with
  | some (ip, []) => some ip
  | _ => none

def isHexDigitByte (c : Nat) : Bool :=
  isDigitByte c || decide (97 ≤ c ∧ c ≤ 102) || decide (65 ≤ c ∧ c ≤ 70)

def hexValue (l : List Nat) : Nat :=
  l.foldl
    (fun acc c =>
      acc * 16 + (if c ≤ 57 then c - 48 else if c ≤ 70 then c - 55 else c - 87))
    0

/-- One IPv6 group: `read_number(16, max 4 digits, zero prefix allowed)` on
the maximal run of hex digits. -/
def readHexGroup (s : List Nat) : Option (Nat × List Nat) :=
  let digits := s.takeWhile isHexDigitByte
  if digits.isEmpty then none
  else if 4 < digits.length then none
  else some (hexValue digits, s.dropWhile isHexDigitByte)

/-- `Parser::read_separator(':', i, inner)`: except for the first group of
a block, a colon must precede the inner reader; atomic on failure. -/
def readSep {α : Type} (isFirst : Bool) (reader : List Nat → Option (α × List Nat))
    (s : List Nat) : Option (α × List Nat) :=
  if isFirst then reader s
  else
    match s with
    | 58 :: rest => reader rest
    | _ => none

/-- `read_ipv6_addr::read_groups` over a block of at most `slots` group
slots: reads colon-separated groups, trying a trailing embedded IPv4
address first whenever at least two slots remain; returns the group values,
whether an embedded IPv4 address was read, and the unread remainder. -/
def readGroups : Bool → Nat → List Nat → List Nat × Bool × List Nat
  | _, 0, s => ([], false, s)
  | isFirst, slots + 1, s =>
      let ipv4Try : Option (Nat × Nat × List Nat) :=
        if 1 ≤ slots then
          match readSep isFirst readIpv4 s with
          | some ((a, b, c, d), rest) => some (a * 256 + b, c * 256 + d, rest)
          | none => none
        else none
      match ipv4Try with
      | some (g1, g2, rest) => ([g1, g2], true, rest)
      | none =>
          match readSep isFirst readHexGroup s with
          | some (g, rest) =>
              let (gs, sawV4, rest2) := readGroups false slots rest
              (g :: gs, sawV4, rest2)
          | none => ([], false, s)

/-- `Ipv6Addr::from_str` (`read_ipv6_addr` plus the end-of-input check):
returns the eight 16-bit group values.  A head block of eight groups is a
complete address; otherwise an embedded IPv4 address must not sit before
`::`, a literal `::` follows, and a tail block of at most `8 - head - 1`
groups completes the address with zero groups in between. -/
def parseIpv6 (s : List Nat) : Option (List Nat) :=
  let (head, headV4, rest) := readGroups true 8 s
  if head.length == 8 then
    if rest.isEmpty then some head else none
  else if headV4 then none
  else
    match rest with
    | 58 :: 58 :: rest2 =>
        let limit := 8 - (head.length + 1)
        let (tail, _, rest3) := readGroups true limit rest2
        if rest3.isEmpty then
          some (head ++ List.replicate (8 - head.length - tail.length) 0 ++ tail)
        else none
    | _ => none

/-! ## The address dispatcher (`UniAddr::new`, src/lib.rs) -/

inductive ParseError where
  | empty : ParseError
  | invalidHost : ParseError
  | invalidPort : ParseError
  | invalidUDSAddress (cause : UnixIoError) : ParseError
  | unsupported : ParseError
deriving DecidableEq

inductive InetAddr where
  | v4 (a b c d : Nat) (port : Nat) : InetAddr
  | v6 (segments : List Nat) (port : Nat) : InetAddr
deriving DecidableEq

/-- `UniAddrInner`; the `Inet` payload keeps the parsed address (an IPv6
address is its eight group values; flow info and scope id are always 0 in
`UniAddr::new` and are omitted). -/
inductive UniAddrInner where
  | inet (addr : InetAddr) : UniAddrInner
  | unix (addr : UnixSocketAddr) : UniAddrInner
  | host (text : List Nat) : UniAddrInner
deriving DecidableEq

/-- `UNIX_URI_PREFIX = "unix://"` as bytes. -/
def unixPfx : List Nat := strBytes "unix://"

/-- `str::strip_prefix` at byte level. -/
def stripPfx : List Nat → List Nat → Option (List Nat)
  | [], s => some s
  | _ :: _, [] => none
  | p :: ps, c :: cs => if p == c then stripPfx ps cs else none

/-- `str::rsplit_once(':')`: split around the last colon byte. -/
def rsplitOnceColon : List Nat → Option (List Nat × List Nat)
  | [] => none
  | c :: cs =>
      match rsplitOnceColon cs with
      | some (l, r) => some (c :: l, r)
      | none => if c == 58 then some ([], cs) else none

def headIsDigit (l : List Nat) : Bool :=
  match l with
  | c :: _ => isDigitByte c
  | [] => false

/-- `host.strip_prefix('[').and_then(|s| s.strip_suffix(']'))`. -/
def stripBrackets (l : List Nat) : Option (List Nat) :=
  match l with
  | c :: rest =>
      if c == 91 then
        if rest.getLast? == some 93 then some rest.dropLast else none
      else none
  | [] => none

/-- `UniAddr::new_host(addr, parsed)`: resolve the host/port pair (from
`parsed` or by re-splitting `addr`), validate the host name, and retain the
entire original string. -/
def new_host (addr : List Nat) (parsed : Option (List Nat × Nat)) :
    Except ParseError UniAddrInner :=
  let hp : Except ParseError (List Nat × Nat) :=
    match parsed with
    | some (h, p) => .ok (h, p)
    | none =>
        match rsplitOnceColon addr with
        | none => .error .invalidPort
        | some (h, pstr) =>
            match parseU16 pstr with
            | none => .error .invalidPort
            | some p => .ok (h, p)
  match hp with
  | .error e => .error e
  | .ok (hostname, _port) =>
      if validate_host_name hostname then .ok (.host addr)
      else .error .invalidHost

/-- `UniAddr::new` on a Unix platform, with the filesystem effects the call
performs: empty check, `unix://` delegation, last-colon split, port parse,
digit-leading IPv4 attempt with host-name fallback, bracketed IPv6 attempt
without fallback, host-name fallback. -/
def uniNewE (addr : List Nat) : Except ParseError UniAddrInner × List FsEffect :=
  if addr.isEmpty then (.error .empty, [])
  else
    match stripPfx unixPfx addr with
    | some rest =>
        (match (unixNewE rest).1 with
          | .ok a => .ok (.unix a)
          | .error e => .error (.invalidUDSAddress e),
         (unixNewE rest).2)
    | none =>
        match rsplitOnceColon addr with
        | none => (.error .invalidPort, [])
        | some (hostPart, portPart) =>
            match parseU16 portPart with
            | none => (.error .invalidPort, [])
            | some port =>
                if headIsDigit hostPart then
                  match parseIpv4 hostPart with
                  | some (a, b, c, d) => (.ok (.inet (.v4 a b c d port)), [])
                  | none => (new_host addr (some (hostPart, port)), [])
                else
                  match stripBrackets hostPart with
                  | some interior =>
                      match parseIpv6 interior with
                      | some segs => (.ok (.inet (.v6 segs port)), [])
                      | none => (.error .invalidHost, [])
                  | none => (new_host addr (some (hostPart, port)), [])

/-- `UniAddr::new` (result view). -/
def uniNew (addr : List Nat) : Except ParseError UniAddrInner :=
  (uniNewE addr).1

/-! ## Formatting (`Display` for the inner variants) -/

def decStrAux : Nat → Nat → List Nat
  | 0, _ => []
  | fuel + 1, n =>
      if n < 10 then [48 + n] else decStrAux fuel (n / 10) ++ [48 + n % 10]

/-- Decimal digits of `n` (`u16`/`u8` `Display`). -/
def decStr (n : Nat) : List Nat := decStrAux (n + 1) n

def hexDigitByte (n : Nat) : Nat := if n < 10 then 48 + n else 87 + n

def hexStrAux : Nat → Nat → List Nat
  | 0, _ => []
  | fuel + 1, n =>
      if n < 16 then [hexDigitByte n]
      else hexStrAux fuel (n / 16) ++ [hexDigitByte (n % 16)]

/-- Lowercase hex digits of `n` without padding (IPv6 group `Display`). -/
def hexStr (n : Nat) : List Nat := hexStrAux (n + 1) n

/-- `Ipv4Addr` `Display`: `a.b.c.d`. -/
def ipv4Str (a b c d : Nat) : List Nat :=
  decStr a ++ [46] ++ decStr b ++ [46] ++ decStr c ++ [46] ++ decStr d

/-- The first longest run of zero segments (`start`, `len`), mirroring the
fold in `Ipv6Addr`'s `Display` (strict comparison keeps the first longest
run). -/
def zeroSpanAux : List Nat → Nat → Nat × Nat → Nat × Nat → Nat × Nat
  | [], _, longest, _ => longest
  | seg :: rest, i, longest, current =>
      if seg == 0 then
        let curStart := if current.2 == 0 then i else current.1
        let curLen := current.2 + 1
        let longest2 := if longest.2 < curLen then (curStart, curLen) else longest
        zeroSpanAux rest (i + 1) longest2 (curStart, curLen)
      else zeroSpanAux rest (i + 1) longest (0, 0)

def joinColon (gs : List (List Nat)) : List Nat :=
  match gs with
  | [] => []
  | g :: rest => g ++ rest.flatMap (fun x => 58 :: x)

/-- `Ipv6Addr` `Display`: the IPv4-mapped special case, else `::`
compression of the first zero run of length at least two, else all eight
groups. -/
def ipv6Str (segs : List Nat) : List Nat :=
  match segs with
  | [0, 0, 0, 0, 0, 65535, g6, g7] =>
      strBytes "::ffff:" ++ ipv4Str (g6 / 256) (g6 % 256) (g7 / 256) (g7 % 256)
  | _ =>
      let (zStart, zLen) := zeroSpanAux segs 0 (0, 0) (0, 0)
      if 1 < zLen then
        joinColon ((segs.take zStart).map hexStr) ++ [58, 58]
          ++ joinColon ((segs.drop (zStart + zLen)).map hexStr)
      else joinColon (segs.map hexStr)

/-- `SocketAddr` `Display`: `a.b.c.d:port`, or `[v6]:port` (scope id 0). -/
def InetAddr.toStr : InetAddr → List Nat
  | .v4 a b c d port => ipv4Str a b c d ++ [58] ++ decStr port
  | .v6 segs port => [91] ++ ipv6Str segs ++ [93, 58] ++ decStr port

/-- `UniAddrInner::to_str`: `Display` of the inet address, the unix address
serialized with the `unix://` prefix and the `@` abstract identifier, or
the retained host string. -/
def UniAddrInner.to_str : UniAddrInner → List Nat
  | .inet a => a.toStr
  | .unix a => unixToOsStringImpl unixPfx (strBytes "@") a
  | .host s => s

instance {ε α : Type} [DecidableEq ε] [DecidableEq α] : DecidableEq (Except ε α) :=
  fun x y =>
    match x, y with
    | .ok a, .ok b =>
        if h : a = b then .isTrue (by rw [h]) else .isFalse (by simp [h])
    | .error a, .error b =>
        if h : a = b then .isTrue (by rw [h]) else .isFalse (by simp [h])
    | .ok _, .error _ => .isFalse (by simp)
    | .error _, .ok _ => .isFalse (by simp)

/-! ## Claim C1: filesystem effects of parsing -/

/-- Modelled from the spec §5 (amended): parsing performs no filesystem
side effects, except that the `unix://` pathname/unnamed branch of
`unix::SocketAddr::new` removes the file at the stripped path (ignoring
the outcome) while parsing. -/
def specParseEffects (addr : List Nat) : List FsEffect :=
  if addr.isEmpty then []
  else
    match stripPfx unixPfx addr with
    | some rest =>
        match rest with
        | c :: _ => if c == 64 || c == 0 then [] else [.removeFile rest]
        | [] => [.removeFile []]
    | none => []

/-- C1 counterexample: parsing `"unix:///tmp/test.socket"` with
`UniAddr::new` performs a filesystem side effect — it invokes
`fs::remove_file("/tmp/test.socket")` (src/unix.rs line 70) — refuting
the claim that parsing never touches the filesystem. -/
theorem C1_counterexample :
    (uniNewE (strBytes "unix:///tmp/test.socket")).2
        = [.removeFile (strBytes "/tmp/test.socket")] ∧
      (uniNewE (strBytes "unix:///tmp/test.socket")).2 ≠ [] := by
  constructor
  · decide
  · decide

/-- C1 (amended): the only filesystem side effect of `UniAddr::new` is the
`fs::remove_file` call on the stripped path in the pathname/unnamed branch
of `unix::SocketAddr::new`; every other parsing path (all non-`unix://`
inputs and abstract-namespace inputs) performs no filesystem effects. -/
theorem C1_parse_effects (addr : List Nat) :
    (uniNewE addr).2 = specParseEffects addr := by
  unfold uniNewE specParseEffects
  split
  · rfl
  · split
    · rename_i rest heq
      rcases rest with _ | ⟨c, rest2⟩
      · rfl
      · show (unixNewE (c :: rest2)).2 = _
        unfold unixNewE unixNewOnE
        by_cases h : (c == 64 || c == 0) = true <;> simp [h]
    · repeat' split
      all_goals rfl

/-! ## Claim C2: the rejection set -/

/-- C2 counterexample: `"[::gg]:99999"` is rejected with `InvalidPort`,
not `InvalidHost`: the port `99999` fails the `u16` parse (step 3) before
the bracketed host is ever examined (step 5). -/
theorem C2_counterexample :
    uniNew (strBytes "[::gg]:99999") = .error .invalidPort ∧
      uniNew (strBytes "[::gg]:99999") ≠ .error .invalidHost := by
  constructor
  · decide
  · decide

/-- C2 (amended): the rejection set maps as claimed except that
`"[::gg]:99999"` yields `InvalidPort` (the out-of-range port is detected
before host validation). -/
theorem C2_rejection_set :
    uniNew (strBytes "") = .error .empty ∧
      uniNew (strBytes "not-an-address") = .error .invalidPort ∧
      uniNew (strBytes "127.0.0.1") = .error .invalidPort ∧
      uniNew (strBytes "127.0.0.1:99999") = .error .invalidPort ∧
      uniNew (strBytes "[::1]") = .error .invalidPort ∧
      uniNew (strBytes "[::gg]:99999") = .error .invalidPort ∧
      uniNew (strBytes "example.com") = .error .invalidPort := by
  refine ⟨?_, ?_, ?_, ?_, ?_, ?_, ?_⟩ <;> decide

/-! ## Claim C4: round trips -/

/-- C4 counterexample: the uncompressed spelling
`"[0:0:0:0:0:0:0:1]:8080"` is a valid input of the bracketed-IPv6 grammar,
yet formatting its parse result produces the compressed `"[::1]:8080"`,
which differs from the input — so the round trip does not hold for every
valid input of the grammar. -/
theorem C4_counterexample :
    (uniNew (strBytes "[0:0:0:0:0:0:0:1]:8080")).map UniAddrInner.to_str
        = .ok (strBytes "[::1]:8080") ∧
      strBytes "[::1]:8080" ≠ strBytes "[0:0:0:0:0:0:0:1]:8080" := by
  constructor
  · decide
  · decide

/-- C4 (amended): round trips are exact for the documented canonical
literal cases (inputs already in canonical form); non-canonical spellings
of the same addresses may reformat. -/
theorem C4_round_trip_literals :
    (uniNew (strBytes "0.0.0.0:0")).map UniAddrInner.to_str
        = .ok (strBytes "0.0.0.0:0") ∧
      (uniNew (strBytes "127.0.0.1:8080")).map UniAddrInner.to_str
        = .ok (strBytes "127.0.0.1:8080") ∧
      (uniNew (strBytes "[::1]:8080")).map UniAddrInner.to_str
        = .ok (strBytes "[::1]:8080") ∧
      (uniNew (strBytes "example.com:8080")).map UniAddrInner.to_str
        = .ok (strBytes "example.com:8080") ∧
      (uniNew (strBytes "1example.com:8080")).map UniAddrInner.to_str
        = .ok (strBytes "1example.com:8080") ∧
      (uniNew (strBytes "unix:///tmp/test.socket")).map UniAddrInner.to_str
        = .ok (strBytes "unix:///tmp/test.socket") ∧
      (uniNew (strBytes "unix://@abstract.name")).map UniAddrInner.to_str
        = .ok (strBytes "unix://@abstract.name") := by
  refine ⟨?_, ?_, ?_, ?_, ?_, ?_, ?_⟩ <;> decide

/-! ## Claim C6: classification by `unix::SocketAddr::new` -/

/-- C6 counterexample: an abstract input whose name is 108 bytes long is
not turned into an `Abstract` address on an abstract-capable platform as
the claim states; `from_abstract_name` rejects it (the name plus its NUL
marker must fit the 108-byte `sun_path`). -/
theorem C6_counterexample :
    unixNew (64 :: List.replicate 108 97) = .error .abstractNameTooLong ∧
      unixNew (64 :: List.replicate 108 97)
        ≠ .ok (.abstractAddr (List.replicate 108 97)) := by
  constructor
  · decide
  · decide

/-- Modelled from the spec (claim C6, amended with the abstract-name length
limit): first byte `'@'`/NUL gives an `Abstract` address of the remaining
bytes when supported and within the platform length limit, `Unsupported`
on other platforms; empty input gives `Unnamed`; any other input gives a
`Pathname` of the full string unless it contains a NUL byte or exceeds the
platform length limit. -/
def unixClassifySpec (abstractSupported : Bool) (addr : List Nat) :
    Except UnixIoError UnixSocketAddr :=
  match addr with
  | c :: rest =>
      if c == 64 || c == 0 then
        if !abstractSupported then .error .notSupported
        else if SUN_PATH_LEN < rest.length + 1 then .error .abstractNameTooLong
        else .ok (.abstractAddr rest)
      else
        if (c :: rest).contains 0 then .error .pathInteriorNul
        else if SUN_PATH_LEN ≤ (c :: rest).length then .error .pathTooLong
        else .ok (.pathname (c :: rest))
  | [] => .ok .unnamed

/-- C6 (amended): `unix::SocketAddr::new` classifies every input exactly as
the (amended) specification states, on both abstract-capable and
abstract-incapable platforms. -/
theorem C6_classification (b : Bool) (addr : List Nat) :
    (unixNewOnE b addr).1 = unixClassifySpec b addr := by
  rcases addr with _ | ⟨c, rest⟩
  · rfl
  · unfold unixNewOnE unixClassifySpec
    by_cases h : (c == 64 || c == 0) = true
    · cases b <;> simp [h, fromAbstractName]
    · simp [h, fromPathname]

/-! ## Claim C9: unix-domain equality -/

/-- C9 counterexample: pathname equality is not byte equality.  The
byte-distinct paths `"/a/"` and `"/a"` both construct `Pathname`
addresses, and the `PartialEq` implementation compares them as `Path`s —
component-wise — so the two addresses are equal although their byte
payloads differ, refuting "Pathname(x) == Pathname(y) iff x == y". -/
theorem C9_counterexample :
    unixNew (strBytes "/a/") = .ok (.pathname (strBytes "/a/")) ∧
      unixNew (strBytes "/a") = .ok (.pathname (strBytes "/a")) ∧
      sockEq (.pathname (strBytes "/a/")) (.pathname (strBytes "/a")) = true ∧
      strBytes "/a/" ≠ strBytes "/a" := by
  refine ⟨by decide, by decide, by decide, by decide⟩

/-- C9 (amended): unix-domain address equality holds only between values
of the same sub-kind: `Pathname(x)` equals `Pathname(y)` exactly when `x`
and `y` have the same `Path` components (so byte-equal paths are always
equal, but component-wise equality also identifies some byte-distinct
pairs); abstract addresses compare by exact name bytes; `Abstract(x)`
never equals `Pathname(x)`; `Unnamed` equals `Unnamed`; and the empty
abstract name does not equal `Unnamed`. -/
theorem C9_unix_equality (x y : List Nat) :
    (sockEq (.pathname x) (.pathname y) = true ↔ pathComponents x = pathComponents y) ∧
      (sockEq (.abstractAddr x) (.abstractAddr y) = true ↔ x = y) ∧
      sockEq (.abstractAddr x) (.pathname x) = false ∧
      sockEq .unnamed .unnamed = true ∧
      sockEq (.abstractAddr []) .unnamed = false := by
  refine ⟨?_, ?_, rfl, rfl, rfl⟩
  · simp [sockEq, UnixSocketAddr.asPathname, pathEq]
  · simp [sockEq, UnixSocketAddr.asPathname, UnixSocketAddr.asAbstractName]

/-! ## Claims C3 and C10: `from_bytes_until_nul` -/

lemma unixNewE_abstract_src (pre n : List Nat)
    (h : (unixNewE pre).1 = .ok (.abstractAddr n)) : ∃ c, pre = c :: n := by
  rcases pre with _ | ⟨c, rest⟩
  · simp [unixNewE, unixNewOnE, fromPathname, SUN_PATH_LEN] at h
  · unfold unixNewE unixNewOnE at h
    by_cases hc : (c == 64 || c == 0) = true
    · simp only [hc, if_true, if_pos] at h
      unfold fromAbstractName at h
      split at h
      · exact absurd h (by simp)
      · exact ⟨c, by simpa using h⟩
    · simp only [hc, if_false, Bool.false_eq_true] at h
      unfold fromPathname at h
      split at h
      · exact absurd h (by simp)
      · split at h
        · exact absurd h (by simp)
        · split at h
          · exact absurd h (by simp)
          · exact absurd h (by simp)

lemma cstrUntilNul_some (s pre : List Nat) (h : cstrUntilNul s = some pre) :
    pre = s.takeWhile (fun c => c != 0) := by
  unfold cstrUntilNul at h
  split at h
  · exact (Option.some.inj h).symm
  · exact absurd h (by simp)

/-- C3 counterexample: the function the claim designates as the strict
variant, `SocketAddr::from_bytes_until_nul`, does not reject an abstract
input containing an embedded NUL byte: it truncates it and succeeds. -/
theorem C3_counterexample :
    fromBytesUntilNul (strBytes "@a" ++ [0] ++ strBytes "b" ++ [0])
        = .ok (.abstractAddr (strBytes "a")) ∧
      (strBytes "@a" ++ [0] ++ strBytes "b" ++ [0]).contains 0 = true := by
  constructor
  · decide
  · decide

/-- C3 (amended): no constructor named `new_strict` exists; the strict
variant is `from_bytes_until_nul`, which requires a NUL terminator and
truncates the input at the first NUL after stripping at most one leading
NUL — so it never produces an abstract address whose name contains an
embedded NUL byte (embedded NULs are truncated away, not rejected). -/
theorem C3_strict_no_embedded_nul (b n : List Nat)
    (h : fromBytesUntilNul b = .ok (.abstractAddr n)) : n.contains 0 = false := by
  unfold fromBytesUntilNul fromBytesUntilNulE at h
  cases hc : cstrUntilNul (stripOneLeadingNul b) with
  | none => rw [hc] at h; exact absurd h (by simp)
  | some pre =>
      rw [hc] at h
      obtain ⟨c, hpre⟩ := unixNewE_abstract_src pre n h
      have htw := cstrUntilNul_some _ _ hc
      have hmem : ∀ x ∈ pre, (x != 0) = true := by
        intro x hx
        have hx2 : x ∈ (stripOneLeadingNul b).takeWhile (fun c => c != 0) := by
          rw [← htw]
          exact hx
        have h3 := List.mem_takeWhile_imp hx2
        simpa using h3
      have h0 : (0 : Nat) ∉ n := by
        intro h0
        have : ((0 : Nat) != 0) = true := hmem 0 (hpre ▸ List.mem_cons_of_mem c h0)
        simp at this
      simp [h0]

/-- C3 witness. -/
theorem C3_witness :
    fromBytesUntilNul (strBytes "@ab" ++ [0]) = .ok (.abstractAddr (strBytes "ab")) ∧
      (strBytes "ab").contains 0 = false := by
  refine ⟨by decide, C3_strict_no_embedded_nul (strBytes "@ab" ++ [0]) (strBytes "ab") (by decide)⟩

lemma takeWhile_append_first_false (p : Nat → Bool) (l r : List Nat) (c : Nat)
    (hl : l.all p = true) (hc : p c = false) :
    (l ++ c :: r).takeWhile p = l := by
  induction l with
  | nil => simp [List.takeWhile_cons, hc]
  | cons d t ih =>
      simp only [List.all_cons, Bool.and_eq_true] at hl
      simp [List.takeWhile_cons, hl.1, ih hl.2]

/-- C10: `from_bytes_until_nul` strips at most one leading NUL, fails with
the missing-terminator `InvalidInput` error exactly when the remaining
bytes contain no NUL, and otherwise applies the ordinary constructor to
the bytes strictly before the first remaining NUL — so `NUL ++ name ++
NUL` (with `name` nonempty, not `'@'`-led, NUL-free and within the length
limit) yields a `Pathname` address, not an `Abstract` one. -/
theorem C10_from_bytes_until_nul (b name : List Nat)
    (hne : name ≠ []) (hhead : name.head? ≠ some 64)
    (hnul : name.contains 0 = false) (hlen : name.length < SUN_PATH_LEN) :
    ((stripOneLeadingNul b).contains 0 = false →
        fromBytesUntilNulE b = (.error .missingNulTerminator, [])) ∧
      ((stripOneLeadingNul b).contains 0 = true →
        fromBytesUntilNul b
          = unixNew ((stripOneLeadingNul b).takeWhile (fun c => c != 0))) ∧
      fromBytesUntilNul (0 :: (name ++ [0])) = .ok (.pathname name) := by
  refine ⟨?_, ?_, ?_⟩
  · intro hc
    have hc2 : (0 : Nat) ∉ stripOneLeadingNul b := by simpa using hc
    unfold fromBytesUntilNulE cstrUntilNul
    simp [hc2]
  · intro hc
    have hc2 : (0 : Nat) ∈ stripOneLeadingNul b := by simpa using hc
    unfold fromBytesUntilNul fromBytesUntilNulE cstrUntilNul unixNew
    simp [hc2]
  · have h0 : (0 : Nat) ∉ name := by simpa using hnul
    have hall : name.all (fun c => c != 0) = true := by
      rw [List.all_eq_true]
      intro x hx
      simp only [bne_iff_ne, ne_eq]
      exact fun hx0 => h0 (hx0 ▸ hx)
    have htw : (name ++ [0]).takeWhile (fun c => c != 0) = name :=
      takeWhile_append_first_false _ name [] 0 hall (by simp)
    have hcont : (name ++ [0]).contains 0 = true := by simp
    have hcstr : cstrUntilNul (stripOneLeadingNul (0 :: (name ++ [0]))) = some name := by
      show cstrUntilNul (name ++ [0]) = some name
      unfold cstrUntilNul
      simp [hcont, htw]
    show (fromBytesUntilNulE (0 :: (name ++ [0]))).1 = _
    unfold fromBytesUntilNulE
    rw [hcstr]
    rcases name with _ | ⟨nc, t⟩
    · exact absurd rfl hne
    · have hnc64 : nc ≠ 64 := by
        intro he
        exact hhead (by simp [he])
      have hnc0 : nc ≠ 0 := by
        intro he
        exact h0 (by simp [he])
      have hcond : (nc == 64 || nc == 0) = false := by
        simp [hnc64, hnc0]
      show (unixNewE (nc :: t)).1 = _
      unfold unixNewE unixNewOnE
      simp only [hcond, Bool.false_eq_true, if_false]
      show fromPathname (nc :: t) = _
      unfold fromPathname
      have hl2 : ¬ SUN_PATH_LEN ≤ (nc :: t).length := by omega
      simp [h0, hl2]
      simpa using hlen

/-- C10 witness. -/
theorem C10_witness :
    strBytes "name" ≠ [] ∧
      fromBytesUntilNul (0 :: (strBytes "name" ++ [0]))
        = .ok (.pathname (strBytes "name")) :=
  ⟨by decide,
    (C10_from_bytes_until_nul [] (strBytes "name") (by decide) (by decide)
      (by decide) (by decide)).2.2⟩

/-! ## Claims C7 and C8: the dispatch steps -/

lemma rsplitOnceColon_eq (addr h p : List Nat)
    (hs : rsplitOnceColon addr = some (h, p)) : addr = h ++ 58 :: p := by
  induction addr generalizing h p with
  | nil => simp [rsplitOnceColon] at hs
  | cons c cs ih =>
      cases hr : rsplitOnceColon cs with
      | some pr =>
          rcases pr with ⟨l, r⟩
          have hs2 : (some (c :: l, r) : Option (List Nat × List Nat)) = some (h, p) := by
            rw [← hs]
            simp [rsplitOnceColon, hr]
          simp only [Option.some.injEq, Prod.mk.injEq] at hs2
          obtain ⟨hs3, hs4⟩ := hs2
          subst hs3
          subst hs4
          rw [ih l r hr]
          rfl
      | none =>
          by_cases hc : c = 58
          · have hs2 : (some (([] : List Nat), cs) : Option (List Nat × List Nat))
                = some (h, p) := by
              rw [← hs]
              simp [rsplitOnceColon, hr, hc]
            simp only [Option.some.injEq, Prod.mk.injEq] at hs2
            obtain ⟨hs3, hs4⟩ := hs2
            subst hs3
            subst hs4
            rw [hc]
            rfl
          · exfalso
            have hnone : rsplitOnceColon (c :: cs) = none := by
              simp [rsplitOnceColon, hr, hc]
            rw [hnone] at hs
            exact Option.noConfusion hs

lemma stripPfx_unixPfx_ne (c : Nat) (cs : List Nat) (hc : c ≠ 117) :
    stripPfx unixPfx (c :: cs) = none := by
  have hpfx : unixPfx = 117 :: [110, 105, 120, 58, 47, 47] := by decide
  rw [hpfx]
  unfold stripPfx
  have h2 : (117 == c) = false := by
    rw [beq_eq_false_iff_ne]
    exact fun he => hc he.symm
  simp [h2]

/-- C7: for every input whose host portion (before the last colon) begins
with an ASCII digit and whose port parses, `UniAddr::new` first attempts
an IPv4 parse of the host: success gives the `Internet` variant (never
`Hostname`), and failure falls back to host-name construction on the
entire original string, which succeeds as `Hostname` exactly when the host
passes hostname validation. -/
theorem C7_digit_leading_dispatch (addr hostPart portPart : List Nat) (port : Nat)
    (hsplit : rsplitOnceColon addr = some (hostPart, portPart))
    (hport : parseU16 portPart = some port)
    (hdigit : headIsDigit hostPart = true) :
    (∀ a b c d, parseIpv4 hostPart = some (a, b, c, d) →
        uniNew addr = .ok (.inet (.v4 a b c d port))) ∧
      (parseIpv4 hostPart = none →
        uniNew addr = new_host addr (some (hostPart, port))) ∧
      new_host addr (some (hostPart, port)) =
        (if validate_host_name hostPart then .ok (.host addr)
         else .error .invalidHost) := by
  have haddr := rsplitOnceColon_eq addr hostPart portPart hsplit
  obtain ⟨hc, hrest, rfl⟩ : ∃ hc hrest, hostPart = hc :: hrest := by
    cases hostPart with
    | nil => simp [headIsDigit] at hdigit
    | cons a b => exact ⟨a, b, rfl⟩
  have hcd : isDigitByte hc = true := by simpa [headIsDigit] using hdigit
  have hc117 : hc ≠ 117 := by
    simp only [isDigitByte, decide_eq_true_eq] at hcd
    omega
  have hEmpty : addr.isEmpty = false := by
    rw [haddr]
    rfl
  have hstrip : stripPfx unixPfx addr = none := by
    rw [haddr]
    exact stripPfx_unixPfx_ne hc _ hc117
  have hmain : uniNew addr =
      (match parseIpv4 (hc :: hrest) with
        | some (a, b, c, d) => .ok (.inet (.v4 a b c d port))
        | none => new_host addr (some (hc :: hrest, port))) := by
    unfold uniNew uniNewE
    simp only [hEmpty, Bool.false_eq_true, if_false, hstrip, hsplit, hport, hdigit,
      if_true]
    cases hp4 : parseIpv4 (hc :: hrest) with
    | some q =>
        rcases q with ⟨a, b, c, d⟩
        rfl
    | none => rfl
  refine ⟨?_, ?_, ?_⟩
  · intro a b c d hp4
    rw [hmain, hp4]
  · intro hp4
    rw [hmain, hp4]
  · rfl

/-- C7 witness (the digit-leading fallback input `"1.2.3.4.com:80"`). -/
theorem C7_witness :
    parseU16 (strBytes "80") = some 80 ∧
      uniNew (strBytes "1.2.3.4.com:80")
        = new_host (strBytes "1.2.3.4.com:80") (some (strBytes "1.2.3.4.com", 80)) :=
  ⟨by decide,
    (C7_digit_leading_dispatch (strBytes "1.2.3.4.com:80") (strBytes "1.2.3.4.com")
      (strBytes "80") 80 (by decide) (by decide) (by decide)).2.1 (by decide)⟩

/-- C8: for every input whose host portion is wrapped in a literal
`[` … `]` pair and whose port parses, the bracket interior is parsed
strictly as an IPv6 literal: success gives the `Internet` (IPv6) variant,
failure gives `InvalidHost` with no fallback to hostname parsing. -/
theorem C8_bracketed_dispatch (addr hostPart portPart interior : List Nat) (port : Nat)
    (hsplit : rsplitOnceColon addr = some (hostPart, portPart))
    (hport : parseU16 portPart = some port)
    (hbr : stripBrackets hostPart = some interior) :
    (∀ segs, parseIpv6 interior = some segs →
        uniNew addr = .ok (.inet (.v6 segs port))) ∧
      (parseIpv6 interior = none → uniNew addr = .error .invalidHost) := by
  have haddr := rsplitOnceColon_eq addr hostPart portPart hsplit
  obtain ⟨hc, hrest, rfl⟩ : ∃ hc hrest, hostPart = hc :: hrest := by
    cases hostPart with
    | nil => simp [stripBrackets] at hbr
    | cons a b => exact ⟨a, b, rfl⟩
  have hc91 : hc = 91 := by
    by_cases h2 : hc = 91
    · exact h2
    · exfalso
      have hnone : stripBrackets (hc :: hrest) = none := by
        simp [stripBrackets, h2]
      rw [hnone] at hbr
      exact Option.noConfusion hbr
  subst hc91
  have hEmpty : addr.isEmpty = false := by
    rw [haddr]
    rfl
  have hstrip : stripPfx unixPfx addr = none := by
    rw [haddr]
    exact stripPfx_unixPfx_ne 91 _ (by omega)
  have hdigit : headIsDigit (91 :: hrest) = false := by
    simp [headIsDigit, isDigitByte]
  have hmain : uniNew addr =
      (match parseIpv6 interior with
        | some segs => .ok (.inet (.v6 segs port))
        | none => .error .invalidHost) := by
    unfold uniNew uniNewE
    simp only [hEmpty, Bool.false_eq_true, if_false, hstrip, hsplit, hport, hdigit,
      hbr]
    cases hp6 : parseIpv6 interior with
    | some segs => rfl
    | none => rfl
  refine ⟨?_, ?_⟩
  · intro segs hp6
    rw [hmain, hp6]
  · intro hp6
    rw [hmain, hp6]

/-- C8 witness (`"[::1]:8080"`). -/
theorem C8_witness :
    stripBrackets (strBytes "[::1]") = some (strBytes "::1") ∧
      uniNew (strBytes "[::1]:8080")
        = .ok (.inet (.v6 [0, 0, 0, 0, 0, 0, 0, 1] 8080)) :=
  ⟨by decide,
    (C8_bracketed_dispatch (strBytes "[::1]:8080") (strBytes "[::1]")
      (strBytes "8080") (strBytes "::1") 8080 (by decide) (by decide)
      (by decide)).1 [0, 0, 0, 0, 0, 0, 0, 1] (by decide)⟩

/-! ## Claim C5: characterizing the hostname validator

The finite-state machine is proved equivalent to the declarative label
conditions.  `hacc st l` is acceptance of `l` from state `st`;
`goodLabelBody`/`labelState` characterize the scan of one dot-free label;
`hostBody` is the declarative acceptance without the overall length
check. -/

def isAccState : Option HState → Bool
  | some (.subsequent _) => true
  | _ => false

def hacc (st : HState) (l : List Nat) : Bool := isAccState (hrun st l)

/-- A label body scans without rejection exactly when its bytes are
allowed, it fits the label length limit, and it does not start with a
hyphen. -/
def goodLabelBody (lab : List Nat) : Bool :=
  lab.all labelByteOk && decide (lab.length ≤ 63) && !(lab.head? == some 45)

/-- The machine state after scanning a good nonempty dot-free label. -/
def labelState (lab : List Nat) : HState :=
  if lab.getLast? == some 45 then .hyphen lab.length
  else if allDigits lab then .numericOnly lab.length
  else .subsequent lab.length

/-- Declarative acceptance without the overall length bound. -/
def hostBody (s : List Nat) : Bool :=
  (splitOnDot s).all labelOkAmended && !allDigits (lastLabel s)

lemma boolEqOfIff (a b : Bool) (h : a = true ↔ b = true) : a = b := by
  cases a <;> cases b <;> simp_all

lemma hrun_cons (st : HState) (c : Nat) (rest : List Nat) :
    hrun st (c :: rest) =
      (match hstep st c with
        | none => none
        | some s2 => hrun s2 rest) := rfl

lemma hrun_single (st : HState) (c : Nat) : hrun st [c] = hstep st c := by
  rw [hrun_cons]
  cases hstep st c <;> rfl

lemma hrun_append (st : HState) (a b : List Nat) :
    hrun st (a ++ b) = (hrun st a).bind (fun s2 => hrun s2 b) := by
  induction a generalizing st with
  | nil => rfl
  | cons c t ih =>
      rw [List.cons_append, hrun_cons, hrun_cons]
      cases hstep st c with
      | none => rfl
      | some s2 => simp [ih]

lemma hacc_next (l : List Nat) : hacc .next l = hacc .start l := by
  cases l <;> rfl

lemma hacc_nextAfter (l : List Nat) : hacc .nextAfterNumericOnly l = hacc .start l := by
  cases l <;> rfl

lemma goodLabelBody_parts (lab : List Nat) :
    goodLabelBody lab = true ↔
      (lab.all labelByteOk = true ∧ lab.length ≤ 63 ∧ lab.head? ≠ some 45) := by
  unfold goodLabelBody
  simp [and_assoc]

lemma goodLabelBody_concat (d : Nat) (t : List Nat) (c : Nat) :
    goodLabelBody ((d :: t) ++ [c]) = true ↔
      (goodLabelBody (d :: t) = true ∧ labelByteOk c = true ∧ (d :: t).length + 1 ≤ 63) := by
  rw [goodLabelBody_parts, goodLabelBody_parts]
  have hall : ((d :: t) ++ [c]).all labelByteOk
      = ((d :: t).all labelByteOk && labelByteOk c) := by
    simp [List.all_append, Bool.and_assoc]
  have hlen : ((d :: t) ++ [c]).length = (d :: t).length + 1 := by simp
  have hhead : ((d :: t) ++ [c]).head? = some d := rfl
  rw [hall, hlen, hhead]
  simp only [List.head?_cons, Bool.and_eq_true]
  constructor
  · rintro ⟨⟨h1, h2⟩, h3, h4⟩
    exact ⟨⟨h1, by omega, h4⟩, h2, h3⟩
  · rintro ⟨⟨h1, h2, h3⟩, h4, h5⟩
    exact ⟨⟨h1, h4⟩, h5, h3⟩

lemma allDigits_false_of_last45 (l : List Nat) (h : l.getLast? = some 45) :
    allDigits l = false := by
  rw [Bool.eq_false_iff]
  intro hd
  have hmem : (45 : Nat) ∈ l := List.mem_of_mem_getLast? h
  have := List.all_eq_true.mp hd 45 hmem
  simp [isDigitByte] at this

lemma isAlphaU_facts (c : Nat) (h : (isAlphaByte c || c == 95) = true) :
    isDigitByte c = false ∧ c ≠ 45 ∧ c ≠ 46 ∧ labelByteOk c = true := by
  simp only [Bool.or_eq_true, isAlphaByte, decide_eq_true_eq, beq_iff_eq] at h
  refine ⟨by simp [isDigitByte]; omega, by omega, by omega, ?_⟩
  simp only [labelByteOk, isAlphaByte, Bool.or_eq_true, decide_eq_true_eq, beq_iff_eq]
  omega

lemma isDigit_facts (c : Nat) (h : isDigitByte c = true) :
    (isAlphaByte c || c == 95) = false ∧ c ≠ 45 ∧ c ≠ 46 ∧ labelByteOk c = true := by
  simp only [isDigitByte, decide_eq_true_eq] at h
  refine ⟨?_, by omega, by omega, ?_⟩
  · simp only [Bool.or_eq_false_iff, isAlphaByte, decide_eq_false_iff_not,
      beq_eq_false_iff_ne, ne_eq]
    omega
  · simp only [labelByteOk, isDigitByte, Bool.or_eq_true, decide_eq_true_eq]
    omega

lemma labelByteOk_false (c : Nat) (hdig : isDigitByte c = false)
    (halpha : (isAlphaByte c || c == 95) = false) (h45 : c ≠ 45) :
    labelByteOk c = false := by
  simp only [Bool.or_eq_false_iff] at halpha
  simp [labelByteOk, hdig, halpha.1, halpha.2, h45]

lemma hrun_label (lab : List Nat) (hnd : lab.all (fun c => c != 46) = true)
    (hne : lab ≠ []) :
    hrun .start lab = (if goodLabelBody lab then some (labelState lab) else none) := by
  induction lab using List.reverseRecOn with
  | nil => exact absurd rfl hne
  | append_singleton l c ih =>
      rcases l with _ | ⟨d, t⟩
      · -- the single byte c
        simp only [List.nil_append] at hnd ⊢
        have hc46 : c ≠ 46 := by simpa using hnd
        rw [hrun_single]
        show hstepFresh c = _
        by_cases hdig : isDigitByte c = true
        · obtain ⟨halpha, h45, _, hok⟩ := isDigit_facts c hdig
          have hgl : goodLabelBody [c] = true := by
            rw [goodLabelBody_parts]
            exact ⟨by simp [hok], by simp, by simp [h45]⟩
          have hls : labelState [c] = .numericOnly 1 := by
            unfold labelState
            simp [h45, allDigits, hdig]
          rw [if_pos hgl, hls]
          unfold hstepFresh
          simp [hc46, hdig]
        · by_cases halpha : (isAlphaByte c || c == 95) = true
          · obtain ⟨_, h45, _, hok⟩ := isAlphaU_facts c halpha
            have hgl : goodLabelBody [c] = true := by
              rw [goodLabelBody_parts]
              exact ⟨by simp [hok], by simp, by simp [h45]⟩
            have hls : labelState [c] = .subsequent 1 := by
              unfold labelState
              simp [h45, allDigits, hdig]
            rw [if_pos hgl, hls]
            unfold hstepFresh
            simp [hc46, hdig, halpha]
          · by_cases h45 : c = 45
            · have hgl : goodLabelBody [c] = false := by
                rw [Bool.eq_false_iff]
                intro hcontra
                rw [goodLabelBody_parts] at hcontra
                obtain ⟨-, -, hh⟩ := hcontra
                exact hh (by simp [h45])
              rw [if_neg (by simp [hgl])]
              unfold hstepFresh
              simp [hc46, hdig, halpha]
            · have hok : labelByteOk c = false :=
                labelByteOk_false c (by simpa using hdig) (by simpa using halpha) h45
              have hgl : goodLabelBody [c] = false := by
                rw [Bool.eq_false_iff]
                intro hcontra
                rw [goodLabelBody_parts] at hcontra
                obtain ⟨hh, -, -⟩ := hcontra
                simp [hok] at hh
              rw [if_neg (by simp [hgl])]
              unfold hstepFresh
              simp [hc46, hdig, halpha]
      · -- lab = (d :: t) ++ [c]
        rw [List.all_append, Bool.and_eq_true] at hnd
        obtain ⟨hnd1, hndc⟩ := hnd
        have hc46 : c ≠ 46 := by simpa using hndc
        rw [hrun_append, ih hnd1 (by simp)]
        by_cases hgl : goodLabelBody (d :: t) = true
        · rw [if_pos hgl]
          simp only [Option.some_bind]
          rw [hrun_single]
          obtain ⟨hall, hlen, hhead⟩ := (goodLabelBody_parts _).mp hgl
          have hlastc : ((d :: t) ++ [c]).getLast? = some c := List.getLast?_concat _
          have hdigsc : allDigits ((d :: t) ++ [c])
              = (allDigits (d :: t) && isDigitByte c) := by
            simp [allDigits, List.all_append, Bool.and_assoc]
          have hlen2 : ((d :: t) ++ [c]).length = (d :: t).length + 1 := by simp
          by_cases hfull : 63 ≤ (d :: t).length
          · have hfull2 : 63 ≤ t.length + 1 := by simpa using hfull
            have hstepn : hstep (labelState (d :: t)) c = none := by
              unfold labelState
              by_cases hlast : ((d :: t).getLast? == some 45) = true
              · simp only [hlast, if_true]
                show hstep (.hyphen (d :: t).length) c = none
                unfold hstep
                simp [hc46, MAX_LABEL_LENGTH, hfull2]
              · simp only [hlast, Bool.false_eq_true, if_false]
                by_cases hdigs : allDigits (d :: t) = true
                · simp only [hdigs, if_true]
                  show hstep (.numericOnly (d :: t).length) c = none
                  unfold hstep
                  simp [hc46, MAX_LABEL_LENGTH, hfull2]
                · simp only [hdigs, Bool.false_eq_true, if_false]
                  show hstep (.subsequent (d :: t).length) c = none
                  unfold hstep
                  simp [hc46, MAX_LABEL_LENGTH, hfull2]
            rw [hstepn]
            have hglc : goodLabelBody ((d :: t) ++ [c]) = false := by
              rw [Bool.eq_false_iff]
              intro hcontra
              have h3 := ((goodLabelBody_concat d t c).mp hcontra).2.2
              omega
            rw [if_neg (by simp only [Bool.not_eq_true]; exact hglc)]
          · have hlt : (d :: t).length < 63 := by omega
            have hlt2 : t.length + 1 < 63 := by simpa using hlt
            have hnle : ¬ 63 ≤ t.length + 1 := by omega
            by_cases hokc : labelByteOk c = true
            · have hglc : goodLabelBody ((d :: t) ++ [c]) = true :=
                (goodLabelBody_concat d t c).mpr ⟨hgl, hokc, by omega⟩
              rw [if_pos hglc]
              by_cases hdig : isDigitByte c = true
              · obtain ⟨halpha, h45, -, -⟩ := isDigit_facts c hdig
                have hlsc : labelState ((d :: t) ++ [c])
                    = (if allDigits (d :: t) then .numericOnly ((d :: t).length + 1)
                       else .subsequent ((d :: t).length + 1)) := by
                  unfold labelState
                  rw [hlastc, hdigsc, hlen2]
                  simp [h45, hdig]
                by_cases hlast : ((d :: t).getLast? == some 45) = true
                · have hdigs : allDigits (d :: t) = false :=
                    allDigits_false_of_last45 _ (beq_iff_eq.mp hlast)
                  have hls : labelState (d :: t) = .hyphen (d :: t).length := by
                    unfold labelState
                    simp [hlast]
                  rw [hls, hlsc, hdigs]
                  unfold hstep
                  simp [hc46, MAX_LABEL_LENGTH, hnle, hlt2, hdig, halpha, h45]
                · have hls : labelState (d :: t)
                      = (if allDigits (d :: t) then .numericOnly (d :: t).length
                         else .subsequent (d :: t).length) := by
                    unfold labelState
                    simp [hlast]
                  rw [hls, hlsc]
                  by_cases hdigs : allDigits (d :: t) = true
                  · rw [if_pos hdigs, if_pos hdigs]
                    unfold hstep
                    simp [hc46, MAX_LABEL_LENGTH, hnle, hlt2, hdig, h45]
                  · rw [if_neg hdigs, if_neg hdigs]
                    unfold hstep
                    simp [hc46, MAX_LABEL_LENGTH, hnle, hlt2, hdig, halpha, h45]
              · by_cases halpha : (isAlphaByte c || c == 95) = true
                · obtain ⟨-, h45, -, -⟩ := isAlphaU_facts c halpha
                  have hlsc : labelState ((d :: t) ++ [c])
                      = .subsequent ((d :: t).length + 1) := by
                    unfold labelState
                    rw [hlastc, hdigsc, hlen2]
                    simp [h45, hdig]
                  rw [hlsc]
                  unfold labelState
                  by_cases hlast : ((d :: t).getLast? == some 45) = true
                  · simp only [hlast, if_true]
                    show hstep (.hyphen (d :: t).length) c = _
                    unfold hstep
                    simp [hc46, MAX_LABEL_LENGTH, hnle, hlt2, hdig, h45, halpha]
                  · simp only [hlast, Bool.false_eq_true, if_false]
                    by_cases hdigs : allDigits (d :: t) = true
                    · simp only [hdigs, if_true]
                      show hstep (.numericOnly (d :: t).length) c = _
                      unfold hstep
                      simp [hc46, MAX_LABEL_LENGTH, hnle, hlt2, hdig, h45, halpha]
                    · simp only [hdigs, Bool.false_eq_true, if_false]
                      show hstep (.subsequent (d :: t).length) c = _
                      unfold hstep
                      simp [hc46, MAX_LABEL_LENGTH, hnle, hlt2, hdig, h45, halpha]
                · have h45 : c = 45 := by
                    have hd2 : isDigitByte c = false := by simpa using hdig
                    have ha2 : (isAlphaByte c || c == 95) = false := by simpa using halpha
                    obtain ⟨ha3, h95⟩ := Bool.or_eq_false_iff.mp ha2
                    have hb := hokc
                    simp only [labelByteOk, hd2, ha3, h95, Bool.or_eq_true, beq_iff_eq,
                      Bool.false_eq_true, false_or] at hb
                    exact hb
                  have hlsc : labelState ((d :: t) ++ [c])
                      = .hyphen ((d :: t).length + 1) := by
                    unfold labelState
                    rw [hlastc, hlen2]
                    simp [h45]
                  rw [hlsc]
                  unfold labelState
                  by_cases hlast : ((d :: t).getLast? == some 45) = true
                  · simp only [hlast, if_true]
                    show hstep (.hyphen (d :: t).length) c = _
                    unfold hstep
                    simp [hc46, MAX_LABEL_LENGTH, hnle, hlt2, h45]
                  · simp only [hlast, Bool.false_eq_true, if_false]
                    by_cases hdigs : allDigits (d :: t) = true
                    · simp only [hdigs, if_true]
                      show hstep (.numericOnly (d :: t).length) c = _
                      unfold hstep
                      simp [hc46, MAX_LABEL_LENGTH, hnle, hlt2, h45, hdig, isDigitByte]
                    · simp only [hdigs, Bool.false_eq_true, if_false]
                      show hstep (.subsequent (d :: t).length) c = _
                      unfold hstep
                      simp [hc46, MAX_LABEL_LENGTH, hnle, hlt2, h45]
            · have hokc2 : labelByteOk c = false := by simpa using hokc
              have hglc : goodLabelBody ((d :: t) ++ [c]) = false := by
                rw [Bool.eq_false_iff]
                intro hcontra
                have h3 := ((goodLabelBody_concat d t c).mp hcontra).2.1
                simp [hokc2] at h3
              rw [if_neg (by simp only [Bool.not_eq_true]; exact hglc)]
              have hdig : isDigitByte c = false := by
                cases hq : isDigitByte c
                · rfl
                · have := (isDigit_facts c hq).2.2.2
                  simp [hokc2] at this
              have halpha : (isAlphaByte c || c == 95) = false := by
                cases hq : (isAlphaByte c || c == 95)
                · rfl
                · have := (isAlphaU_facts c hq).2.2.2
                  simp [hokc2] at this
              have h45 : c ≠ 45 := by
                intro he
                have : labelByteOk c = true := by simp [labelByteOk, he]
                simp [hokc2] at this
              unfold labelState
              by_cases hlast : ((d :: t).getLast? == some 45) = true
              · simp only [hlast, if_true]
                show hstep (.hyphen (d :: t).length) c = none
                unfold hstep
                simp [hc46, MAX_LABEL_LENGTH, hnle, hlt2, h45, hdig, halpha]
              · simp only [hlast, Bool.false_eq_true, if_false]
                by_cases hdigs : allDigits (d :: t) = true
                · simp only [hdigs, if_true]
                  show hstep (.numericOnly (d :: t).length) c = none
                  unfold hstep
                  simp [hc46, MAX_LABEL_LENGTH, hnle, hlt2, h45, hdig, halpha]
                · simp only [hdigs, Bool.false_eq_true, if_false]
                  show hstep (.subsequent (d :: t).length) c = none
                  unfold hstep
                  simp [hc46, MAX_LABEL_LENGTH, hnle, hlt2, h45, hdig, halpha]
        · rw [if_neg hgl]
          have hglc : goodLabelBody ((d :: t) ++ [c]) = false := by
            rw [Bool.eq_false_iff]
            intro hcontra
            exact hgl ((goodLabelBody_concat d t c).mp hcontra).1
          rw [if_neg (by simp only [Bool.not_eq_true]; exact hglc)]
          rfl

lemma hrun_label_dot (l rest : List Nat) (hnd : l.all (fun c => c != 46) = true) :
    hrun .start (l ++ 46 :: rest) =
      (if !l.isEmpty && goodLabelBody l && !(l.getLast? == some 45) then
        (if allDigits l then hrun .nextAfterNumericOnly rest else hrun .next rest)
       else none) := by
  rcases l with _ | ⟨d, t⟩
  · simp only [List.nil_append, List.isEmpty_nil, Bool.not_true, Bool.false_and,
      Bool.false_eq_true, if_false]
    rw [hrun_cons]
    show (match hstepFresh 46 with
      | none => none
      | some s2 => hrun s2 rest) = none
    unfold hstepFresh
    simp
  · rw [hrun_append, hrun_label (d :: t) hnd (by simp)]
    by_cases hgl : goodLabelBody (d :: t) = true
    · rw [if_pos hgl]
      simp only [Option.some_bind]
      rw [hrun_cons]
      by_cases hlast : ((d :: t).getLast? == some 45) = true
      · have hls : labelState (d :: t) = .hyphen (d :: t).length := by
          unfold labelState
          simp [hlast]
        rw [hls]
        have hstep46 : hstep (.hyphen (d :: t).length) 46 = none := by
          unfold hstep
          simp
        rw [hstep46]
        rw [if_neg (by simp [hlast])]
      · by_cases hdigs : allDigits (d :: t) = true
        · have hls : labelState (d :: t) = .numericOnly (d :: t).length := by
            unfold labelState
            simp [hlast, hdigs]
          rw [hls]
          have hstep46 : hstep (.numericOnly (d :: t).length) 46
              = some .nextAfterNumericOnly := by
            unfold hstep
            simp
          rw [hstep46]
          rw [if_pos (by simp [hgl, hlast]), if_pos hdigs]
        · have hls : labelState (d :: t) = .subsequent (d :: t).length := by
            unfold labelState
            simp [hlast, hdigs]
          rw [hls]
          have hstep46 : hstep (.subsequent (d :: t).length) 46 = some .next := by
            unfold hstep
            simp
          rw [hstep46]
          rw [if_pos (by simp [hgl, hlast]), if_neg hdigs]
    · rw [if_neg hgl]
      have hglf : goodLabelBody (d :: t) = false := by simpa using hgl
      rw [if_neg (by simp [hglf])]
      rfl

lemma splitOnDot_ne_nil (s : List Nat) : splitOnDot s ≠ [] := by
  cases s with
  | nil => simp [splitOnDot]
  | cons c rest =>
      unfold splitOnDot
      by_cases h : (c == 46) = true
      · simp [h]
      · rw [if_neg h]
        cases splitOnDot rest <;> simp

lemma splitOnDot_noDot (l : List Nat) (h : l.all (fun c => c != 46) = true) :
    splitOnDot l = [l] := by
  induction l with
  | nil => rfl
  | cons c rest ih =>
      rw [List.all_cons, Bool.and_eq_true] at h
      have hc : ¬ (c == 46) = true := by simpa using h.1
      unfold splitOnDot
      rw [if_neg hc, ih h.2]

lemma splitOnDot_cons (c : Nat) (rest : List Nat) :
    splitOnDot (c :: rest) =
      (if c == 46 then [] :: splitOnDot rest
       else
         match splitOnDot rest with
         | [] => [[c]]
         | lab :: labs => (c :: lab) :: labs) := rfl

lemma splitOnDot_append_dot (l r : List Nat) (h : l.all (fun c => c != 46) = true) :
    splitOnDot (l ++ 46 :: r) = l :: splitOnDot r := by
  induction l with
  | nil =>
      show splitOnDot (46 :: r) = [] :: splitOnDot r
      rw [splitOnDot_cons]
      simp
  | cons c rest ih =>
      rw [List.all_cons, Bool.and_eq_true] at h
      have hc : ¬ (c == 46) = true := by simpa using h.1
      show splitOnDot (c :: (rest ++ 46 :: r)) = _
      rw [splitOnDot_cons]
      rw [if_neg hc, ih h.2]

lemma dropWhile_head_false (p : Nat → Bool) (s : List Nat) (d : Nat) (rest : List Nat)
    (h : s.dropWhile p = d :: rest) : p d = false := by
  induction s with
  | nil => simp [List.dropWhile] at h
  | cons c cs ih =>
      rw [List.dropWhile_cons] at h
      by_cases hp : p c = true
      · rw [if_pos hp] at h
        exact ih h
      · rw [if_neg hp] at h
        injection h with h1 h2
        rw [← h1]
        simpa using hp

lemma all_takeWhile (p : Nat → Bool) (s : List Nat) : (s.takeWhile p).all p = true := by
  rw [List.all_eq_true]
  intro x hx
  exact List.mem_takeWhile_imp hx

lemma labelOkAmended_eq (lab : List Nat) :
    labelOkAmended lab
      = (!lab.isEmpty && goodLabelBody lab && !(lab.getLast? == some 45)) := by
  apply boolEqOfIff
  unfold labelOkAmended labelOkClaim goodLabelBody
  simp only [Bool.and_eq_true]
  tauto

lemma isAccState_labelState (lab : List Nat) :
    isAccState (some (labelState lab))
      = (!(lab.getLast? == some 45) && !allDigits lab) := by
  unfold labelState
  by_cases h1 : (lab.getLast? == some 45) = true
  · simp [h1, isAccState]
  · by_cases h2 : allDigits lab = true
    · simp [h1, h2, isAccState]
    · simp [h1, h2, isAccState]

lemma lastLabel_noDot (l : List Nat) (h : l.all (fun c => c != 46) = true) :
    lastLabel l = l := by
  unfold lastLabel
  rw [splitOnDot_noDot l h]
  rfl

lemma lastLabel_dot (l r : List Nat) (h : l.all (fun c => c != 46) = true) :
    lastLabel (l ++ 46 :: r) = lastLabel r := by
  unfold lastLabel
  rw [splitOnDot_append_dot l r h]
  cases hsp : splitOnDot r with
  | nil => exact absurd hsp (splitOnDot_ne_nil r)
  | cons a b => simp [List.getLastD_cons]

lemma hostBody_noDot (l : List Nat) (h : l.all (fun c => c != 46) = true) :
    hostBody l = (labelOkAmended l && !allDigits l) := by
  unfold hostBody
  rw [splitOnDot_noDot l h, lastLabel_noDot l h]
  simp

lemma hostBody_dot (l r : List Nat) (h : l.all (fun c => c != 46) = true) :
    hostBody (l ++ 46 :: r) = (labelOkAmended l && hostBody r) := by
  unfold hostBody
  rw [splitOnDot_append_dot l r h, lastLabel_dot l r h]
  simp [Bool.and_assoc]

lemma hacc_start_hostBody : ∀ n (s : List Nat), s.length < n → hacc .start s = hostBody s := by
  intro n
  induction n with
  | zero =>
      intro s h
      omega
  | succ n ih =>
      intro s hlen
      by_cases hnil : s = []
      · subst hnil
        rfl
      · cases hdw : s.dropWhile (fun c => c != 46) with
        | nil =>
            have hs : s.takeWhile (fun c => c != 46) = s := by
              have h2 := List.takeWhile_append_dropWhile (fun c => c != 46) s
              rw [hdw] at h2
              simpa using h2
            have hnd : s.all (fun c => c != 46) = true := by
              rw [← hs]
              exact all_takeWhile _ s
            rw [hostBody_noDot s hnd]
            unfold hacc
            rw [hrun_label s hnd hnil]
            by_cases hgl : goodLabelBody s = true
            · rw [if_pos hgl, isAccState_labelState, labelOkAmended_eq]
              have hie : s.isEmpty = false := by
                cases s
                · exact absurd rfl hnil
                · rfl
              simp [hie, hgl, Bool.and_assoc]
            · rw [if_neg hgl]
              have hglf : goodLabelBody s = false := by simpa using hgl
              rw [labelOkAmended_eq]
              simp [isAccState, hglf]
        | cons d rest =>
            have hd46 : d = 46 := by
              have h2 := dropWhile_head_false (fun c => c != 46) s d rest hdw
              simpa using h2
            subst hd46
            obtain ⟨l, hnd, hsplit⟩ :
                ∃ l, l.all (fun c => c != 46) = true ∧ s = l ++ 46 :: rest := by
              refine ⟨s.takeWhile (fun c => c != 46), all_takeWhile _ s, ?_⟩
              have h2 := List.takeWhile_append_dropWhile (fun c => c != 46) s
              rw [hdw] at h2
              exact h2.symm
            have hrestlen : rest.length < n := by
              rw [hsplit] at hlen
              simp [List.length_append] at hlen
              omega
            rw [hsplit]
            unfold hacc
            rw [hrun_label_dot l rest hnd, hostBody_dot l rest hnd, labelOkAmended_eq]
            by_cases hcond :
                (!l.isEmpty && goodLabelBody l && !(l.getLast? == some 45)) = true
            · rw [if_pos hcond, hcond]
              have hbranch : isAccState
                  (if allDigits l then hrun .nextAfterNumericOnly rest
                   else hrun .next rest) = hacc .start rest := by
                by_cases hdigs : allDigits l = true
                · rw [if_pos hdigs]
                  exact hacc_nextAfter rest
                · rw [if_neg hdigs]
                  exact hacc_next rest
              rw [hbranch, ih rest hrestlen]
              simp
            · rw [if_neg hcond]
              have hcf : (!l.isEmpty && goodLabelBody l && !(l.getLast? == some 45))
                  = false := by simpa using hcond
              rw [hcf]
              simp [isAccState]

lemma validate_eq (s : List Nat) :
    validate_host_name s
      = (if MAX_NAME_LENGTH < s.length then false else hacc .start s) := by
  unfold validate_host_name hacc
  split
  · rfl
  · cases hr : hrun HState.start s with
    | none => rfl
    | some st => cases st <;> rfl

/-- C5 counterexample: `"a.-b"` satisfies every condition the claim lists
(length, byte set, no empty label, no label ending in a hyphen, final
label not numeric) yet the validator rejects it, because its second label
begins with a hyphen — a condition the claim omits. -/
theorem C5_counterexample :
    hostSpecClaim (strBytes "a.-b") = true ∧
      validate_host_name (strBytes "a.-b") = false := by
  constructor
  · decide
  · decide

/-- C5 (amended): the hostname validator accepts a byte string exactly when
the claim's conditions hold together with the missing condition that no
label begins with a hyphen. -/
theorem C5_hostname_characterization (s : List Nat) :
    validate_host_name s = hostSpecAmended s := by
  rw [validate_eq]
  unfold hostSpecAmended
  by_cases hlen : MAX_NAME_LENGTH < s.length
  · rw [if_pos hlen]
    unfold MAX_NAME_LENGTH at hlen
    have hd : decide (s.length ≤ 253) = false := by
      simp
      omega
    rw [hd]
    simp
  · rw [if_neg hlen]
    unfold MAX_NAME_LENGTH at hlen
    have hd : decide (s.length ≤ 253) = true := by
      simp
      omega
    rw [hd]
    rw [hacc_start_hostBody (s.length + 1) s (by omega)]
    unfold hostBody
    simp [Bool.and_assoc]
